import Mathlib

/-!
Verification of the lmdb-rs safety wrapper against its specification.

The crate's `src/lib.rs` provides the two error-propagation macros
(`lmdb_try`, `lmdb_try_with_cleanup`) and re-exports the wrapper modules
(environment, database, transaction, cursor, error, flags).  The macros are
embedded directly from the source; the wrapper modules are modelled from the
specification, as noted on each definition.
-/

namespace Lmdb

/-- Keys and values are opaque byte sequences (spec §6); a byte is a `Nat`. -/
abbrev Bytes := List Nat

/-- Modelled from the spec: the closed set of typed failure kinds of the
`error` module (§4.5): `NotFound`, `KeyExist`, `Corrupted`, `PageFull`,
`MapFull`, `DbsFull`, `ReadersFull`, `TxnFull`, `CursorFull`, `Incompatible`,
`BadValSize`, `Invalid`, `Other(code)`. -/
inductive Error where
  | NotFound
  | KeyExist
  | Corrupted
  | PageFull
  | MapFull
  | DbsFull
  | ReadersFull
  | TxnFull
  | CursorFull
  | Incompatible
  | BadValSize
  | Invalid
  | Other (code : Int)
  deriving DecidableEq, Repr

/-- The engine's success result code `ffi::MDB_SUCCESS`, against which the
`lmdb_try` macros compare (src/lib.rs lines 37 and 46). -/
def MDB_SUCCESS : Int := 0

/-- The engine's `MDB_KEYEXIST` result code. -/
def MDB_KEYEXIST : Int := -30799

/-- The engine's `MDB_NOTFOUND` result code. -/
def MDB_NOTFOUND : Int := -30798

/-- The engine's `MDB_CORRUPTED` result code. -/
def MDB_CORRUPTED : Int := -30796

/-- The engine's `MDB_INVALID` result code. -/
def MDB_INVALID : Int := -30793

/-- The engine's `MDB_MAP_FULL` result code. -/
def MDB_MAP_FULL : Int := -30792

/-- The engine's `MDB_DBS_FULL` result code. -/
def MDB_DBS_FULL : Int := -30791

/-- The engine's `MDB_READERS_FULL` result code. -/
def MDB_READERS_FULL : Int := -30790

/-- The engine's `MDB_TXN_FULL` result code. -/
def MDB_TXN_FULL : Int := -30788

/-- The engine's `MDB_CURSOR_FULL` result code. -/
def MDB_CURSOR_FULL : Int := -30787

/-- The engine's `MDB_PAGE_FULL` result code. -/
def MDB_PAGE_FULL : Int := -30786

/-- The engine's `MDB_INCOMPATIBLE` result code. -/
def MDB_INCOMPATIBLE : Int := -30784

/-- The engine's `MDB_BAD_VALSIZE` result code. -/
def MDB_BAD_VALSIZE : Int := -30781

/-- Modelled from the spec: `Error::from_err_code`, the fixed mapping from
native result codes to the typed kinds (§4.5); codes outside the closed set
fall through to `Other(code)`. -/
def Error.from_err_code (code : Int) : Error :=
  if code = MDB_KEYEXIST then .KeyExist
  else if code = MDB_NOTFOUND then .NotFound
  else if code = MDB_CORRUPTED then .Corrupted
  else if code = MDB_INVALID then .Invalid
  else if code = MDB_MAP_FULL then .MapFull
  else if code = MDB_DBS_FULL then .DbsFull
  else if code = MDB_READERS_FULL then .ReadersFull
  else if code = MDB_TXN_FULL then .TxnFull
  else if code = MDB_CURSOR_FULL then .CursorFull
  else if code = MDB_PAGE_FULL then .PageFull
  else if code = MDB_INCOMPATIBLE then .Incompatible
  else if code = MDB_BAD_VALSIZE then .BadValSize
  else .Other code

/-- Embedding of the `lmdb_try!` macro (src/lib.rs lines 34-41): match the
engine result code against `MDB_SUCCESS`; on success produce `()`, otherwise
return `Err(Error::from_err_code(err_code))` to the caller. -/
def lmdb_try (code : Int) : Except Error Unit :=
  if code = MDB_SUCCESS then .ok ()
  else .error (Error.from_err_code code)

/-- Embedding of the `lmdb_try_with_cleanup!` macro (src/lib.rs lines 43-53).
The cleanup expression is stateful, modelled as a function producing a new
state and a result value; the macro binds that result to `_`, discarding it.
On `MDB_SUCCESS` the cleanup is not evaluated and the state is untouched; on
any other code the cleanup is evaluated exactly once (its state effect is
kept, its result value dropped) and the error returned is built from the
original engine code. -/
def lmdb_try_with_cleanup {σ α : Type} (code : Int) (cleanup : σ → σ × α)
    (s : σ) : σ × Except Error Unit :=
  if code = MDB_SUCCESS then (s, .ok ())
  else ((cleanup s).1, .error (Error.from_err_code code))

/-- Modelled from the spec: the subset of write flags the claims exercise
(§6): `no-overwrite` and `no-duplicate-data`. -/
structure WriteFlags where
  no_overwrite : Bool
  no_dup_data : Bool
  deriving DecidableEq, Repr

/-- The empty write-flag set, `WriteFlags::empty()`. -/
def WriteFlags.empty : WriteFlags := ⟨false, false⟩

/-- Write flags containing exactly `NO_OVERWRITE`. -/
def WriteFlags.noOverwrite : WriteFlags := ⟨true, false⟩

/-- Modelled from the spec: the subset of database flags the claims exercise
(§6): `duplicate-sorted values` (`DUP_SORT`). -/
structure DatabaseFlags where
  dup_sort : Bool
  deriving DecidableEq, Repr

/-- Flags of the default database: not duplicate-sorted. -/
def DatabaseFlags.default : DatabaseFlags := ⟨false⟩

/-- Flags containing exactly `DUP_SORT`. -/
def DatabaseFlags.dupSort : DatabaseFlags := ⟨true⟩

/-- Modelled from the spec: the contents of one database, a key/value
namespace (§3).  Each key maps to its list of stored values: a singleton for
a plain database, the ascending list of duplicates for a duplicate-sorted
one (glossary: kept in sorted order per key). -/
abbrev Db := List (Bytes × List Bytes)

/-- Lookup of the value list stored under a key. -/
def dbLookup (db : Db) (k : Bytes) : Option (List Bytes) :=
  match db with
  | [] => none
  | e :: es => if e.1 = k then some e.2 else dbLookup es k

/-- Replacement of the value list stored under a key (inserting the entry if
the key is absent). -/
def dbUpdate (db : Db) (k : Bytes) (vs : List Bytes) : Db :=
  match db with
  | [] => [(k, vs)]
  | e :: es => if e.1 = k then (k, vs) :: es else e :: dbUpdate es k vs

/-- Modelled from the spec: the engine's byte-string ordering used for keys
and for duplicate values (lexicographic, a strict prefix sorting first). -/
def bytesLt (a b : Bytes) : Bool :=
  match a, b with
  | [], [] => false
  | [], _ :: _ => true
  | _ :: _, [] => false
  | x :: xs, y :: ys => if x < y then true else if y < x then false else bytesLt xs ys

/-- Modelled from the spec: insertion of a value into the ascending duplicate
list of a duplicate-sorted key; an already-present value is kept once
(key/value pairs are unique). -/
def insertDup (v : Bytes) (vs : List Bytes) : List Bytes :=
  match vs with
  | [] => [v]
  | w :: ws =>
    if v = w then w :: ws
    else if bytesLt v w then v :: w :: ws
    else w :: insertDup v ws

/-- Number of data bytes held by one database entry. -/
def entrySize (e : Bytes × List Bytes) : Nat :=
  e.1.length + (e.2.map List.length).sum

/-- Number of data bytes held by a database. -/
def dbSize (db : Db) : Nat :=
  (db.map entrySize).sum

/-- Modelled from the spec: the pure insert/overwrite step of
`RwTransaction::put` (§4.3).  With no flags it inserts or overwrites; with
`NO_OVERWRITE` it fails with `KeyExist` if the key exists, unless the
database is duplicate-sorted, where it fails only if the exact key+value
pair exists; `NO_DUP_DATA` fails with `KeyExist` only for an identical
duplicate pair.  In a duplicate-sorted database a new value joins the
ascending duplicate list of its key. -/
def putDb (dflags : DatabaseFlags) (wflags : WriteFlags) (db : Db)
    (k v : Bytes) : Except Error Db :=
  match dbLookup db k with
  | none => .ok (dbUpdate db k [v])
  | some vs =>
    if dflags.dup_sort then
      if (wflags.no_overwrite || wflags.no_dup_data) && vs.contains v then
        .error .KeyExist
      else
        .ok (dbUpdate db k (insertDup v vs))
    else
      if wflags.no_overwrite then .error .KeyExist
      else .ok (dbUpdate db k [v])

/-- Read of the value currently associated with a key: the single stored
value, or the first (smallest) duplicate in a duplicate-sorted database;
`NotFound` if the key is absent (spec §4.3 `get`). -/
def viewGet (db : Db) (k : Bytes) : Except Error Bytes :=
  match dbLookup db k with
  | none => .error .NotFound
  | some [] => .error .NotFound
  | some (v :: _) => .ok v

/-- Modelled from the spec: cursor iteration over the duplicates of one key
in a duplicate-sorted database (§4.4 `IterDup`): the stored duplicate list,
traversed front to back. -/
def dupIter (db : Db) (k : Bytes) : List Bytes :=
  (dbLookup db k).getD []

/-- Modelled from the spec: the state of one open environment (§3, §2):
the configured map size ceiling and the copy-on-write MVCC version list of
committed database states (the last element is the current committed state;
earlier elements are the snapshots older readers may still hold), plus the
single-writer slot (§5). -/
structure EnvState where
  mapSize : Nat
  versions : List Db
  writerActive : Bool
  deriving Repr

/-- Freshly opened environment: one committed version, the empty database,
no active writer. -/
def newEnv (mapSize : Nat) : EnvState :=
  ⟨mapSize, [[]], false⟩

/-- Current committed database state of an environment. -/
def currentDb (e : EnvState) : Db :=
  (e.versions.getLast?).getD []

/-- Modelled from the spec: a read-only transaction (§3, §4.3): a
point-in-time snapshot, recorded as the index of the committed version it
was begun at. -/
structure RoTxn where
  ver : Nat
  deriving DecidableEq, Repr

/-- Beginning a read-only transaction pins the current committed version
(spec §5: a consistent point-in-time snapshot). -/
def beginRoTxn (e : EnvState) : RoTxn :=
  ⟨e.versions.length - 1⟩

/-- The database state a read-only transaction observes: the version it
pinned at begin time.  An index outside the version list denotes a dead
handle and every read through it fails. -/
def roSnapshot (e : EnvState) (t : RoTxn) : Option Db :=
  e.versions[t.ver]?

/-- Read of a key through a read-only transaction: a lookup in its pinned
snapshot (spec §4.3 `get`). -/
def roGet (e : EnvState) (t : RoTxn) (k : Bytes) : Except Error Bytes :=
  match roSnapshot e t with
  | none => .error .Invalid
  | some db => viewGet db k

/-- Modelled from the spec: a read-write transaction (§3, §4.3): a private
working copy of the committed state, receiving this transaction's writes. -/
structure RwTxn where
  working : Db
  deriving Repr

/-- Beginning a read-write transaction acquires the environment's writer
slot; while another writer is active the attempt does not complete (spec §5:
block until available), modelled as `none`. -/
def beginRwTxn (e : EnvState) : Option (EnvState × RwTxn) :=
  if e.writerActive then none
  else some ({e with writerActive := true}, ⟨currentDb e⟩)

/-- Write of a key/value pair through a read-write transaction
(spec §4.3 `put`).  A failed put leaves the transaction's working state
unchanged; a put whose resulting state would exceed the configured map size
fails with `MapFull` (spec §9: insufficient map size fails with MapFull). -/
def rwPut (e : EnvState) (t : RwTxn) (dflags : DatabaseFlags)
    (wflags : WriteFlags) (k v : Bytes) : RwTxn × Except Error Unit :=
  match putDb dflags wflags t.working k v with
  | .error err => (t, .error err)
  | .ok db2 =>
    if dbSize db2 ≤ e.mapSize then (⟨db2⟩, .ok ())
    else (t, .error .MapFull)

/-- Read of a key through a read-write transaction: a lookup in its own
working state, so the transaction sees its own uncommitted writes. -/
def rwGet (t : RwTxn) (k : Bytes) : Except Error Bytes :=
  viewGet t.working k

/-- Modelled from the spec: `commit()` (§4.3).  The engine's finalize step is
an external collaborator, so its result code is a parameter.  On
`MDB_SUCCESS` the working state becomes the new current committed version;
on any other code the transaction is implicitly aborted and the committed
versions are untouched.  Either way the writer slot is released: the handle
is consumed. -/
def commit (e : EnvState) (t : RwTxn) (engineCode : Int) :
    EnvState × Except Error Unit :=
  if engineCode = MDB_SUCCESS then
    ({e with versions := e.versions ++ [t.working], writerActive := false},
      .ok ())
  else
    ({e with writerActive := false},
      .error (Error.from_err_code engineCode))

/-- Modelled from the spec: the events seen by the environment's transaction
admission gate (§5, §9): a thread attempting to begin a read-write
transaction, a read-write transaction ending by commit or abort, and the
corresponding events for read-only transactions. -/
inductive SchedOp where
  | beginRw
  | endRw
  | beginRo
  | endRo
  deriving DecidableEq, Repr

/-- Modelled from the spec: the admission gate's state (§9: an explicit
exclusive-access token owned by the Environment): the number of currently
active read-write and read-only transactions. -/
structure Sched where
  writers : Nat
  readers : Nat
  deriving DecidableEq, Repr

/-- Modelled from the spec: one step of the admission gate (§5).  An attempt
to begin a read-write transaction completes only while no writer is active;
otherwise the attempting thread blocks and the state is unchanged (the begin
has not happened).  Read-only begins always complete (reader-slot exhaustion
is not modelled; it only makes begins fail, never admits more writers). -/
def stepSched (s : Sched) : SchedOp → Sched
  | .beginRw => if s.writers = 0 then {s with writers := s.writers + 1} else s
  | .endRw => {s with writers := s.writers - 1}
  | .beginRo => {s with readers := s.readers + 1}
  | .endRo => {s with readers := s.readers - 1}

/-- A run of the admission gate over a sequence of events. -/
def runSched (s : Sched) (ops : List SchedOp) : Sched :=
  ops.foldl stepSched s

/-- A sequence of default-flag puts performed on one read-write transaction,
stopping at the first failure (the shape of the `verify_2gb_plus` test,
src/lib.rs lines 158-175). -/
def runPuts (e : EnvState) (t : RwTxn) :
    List (Bytes × Bytes) → RwTxn × Except Error Unit
  | [] => (t, .ok ())
  | p :: rest =>
    match rwPut e t DatabaseFlags.default WriteFlags.empty p.1 p.2 with
    | (t2, .ok _) => runPuts e t2 rest
    | (t2, .error err) => (t2, .error err)

/-- Cumulative number of key and value bytes written by a put sequence. -/
def putsSize (puts : List (Bytes × Bytes)) : Nat :=
  (puts.map (fun p => p.1.length + p.2.length)).sum

/-- The last value a put sequence writes under a key, if any. -/
def lastPut (k : Bytes) : List (Bytes × Bytes) → Option Bytes
  | [] => none
  | p :: rest =>
    match lastPut k rest with
    | some v => some v
    | none => if p.1 = k then some p.2 else none

/-- Statement that every duplicate list in a database is strictly ascending
in the engine's byte ordering (glossary: kept in sorted order per key). -/
def dupsSorted (db : Db) : Prop :=
  ∀ e ∈ db, List.Chain' (fun a b => bytesLt a b = true) e.2

/-- A sequence of puts of several values under one fixed key, applied
directly to a database state, stopping at the first failure (the shape of
the duplicate-ordering scenario). -/
def putManyDb (dflags : DatabaseFlags) (wflags : WriteFlags) (db : Db)
    (k : Bytes) : List Bytes → Except Error Db
  | [] => .ok db
  | v :: rest =>
    match putDb dflags wflags db k v with
    | .error err => .error err
    | .ok db2 => putManyDb dflags wflags db2 k rest

theorem dbLookup_dbUpdate_self (db : Db) (k : Bytes) (vs : List Bytes) :
    dbLookup (dbUpdate db k vs) k = some vs := by
  induction db with
  | nil => simp [dbUpdate, dbLookup]
  | cons e es ih =>
    by_cases he : e.1 = k
    · simp [dbUpdate, he, dbLookup]
    · simp [dbUpdate, he, dbLookup, ih]

theorem dbLookup_dbUpdate_ne (db : Db) (k k2 : Bytes) (vs : List Bytes)
    (h : k2 ≠ k) : dbLookup (dbUpdate db k vs) k2 = dbLookup db k2 := by
  induction db with
  | nil => simp [dbUpdate, dbLookup, Ne.symm h]
  | cons e es ih =>
    by_cases he : e.1 = k
    · simp [dbUpdate, he, dbLookup, Ne.symm h]
    · simp [dbUpdate, he, dbLookup, ih]

theorem dbSize_dbUpdate_le (db : Db) (k v : Bytes) :
    dbSize (dbUpdate db k [v]) ≤ dbSize db + (k.length + v.length) := by
  induction db with
  | nil => simp [dbUpdate, dbSize, entrySize]
  | cons e es ih =>
    by_cases he : e.1 = k
    · simp [dbUpdate, he, dbSize, entrySize]
      omega
    · simp [dbUpdate, he, dbSize, entrySize] at ih ⊢
      omega

theorem viewGet_dbUpdate_self (db : Db) (k v : Bytes) :
    viewGet (dbUpdate db k [v]) k = .ok v := by
  simp [viewGet, dbLookup_dbUpdate_self]

theorem putDb_no_flags (dflags : DatabaseFlags) (db : Db) (k v : Bytes)
    (hd : dflags.dup_sort = false) :
    putDb dflags WriteFlags.empty db k v = .ok (dbUpdate db k [v]) := by
  cases hl : dbLookup db k <;>
    simp [putDb, hl, hd, WriteFlags.empty]

theorem bytesLt_total (a b : Bytes) :
    a = b ∨ bytesLt a b = true ∨ bytesLt b a = true := by
  induction a generalizing b with
  | nil => cases b <;> simp [bytesLt]
  | cons x xs ih =>
    cases b with
    | nil => simp [bytesLt]
    | cons y ys =>
      rcases Nat.lt_trichotomy x y with h | h | h
      · right; left; simp [bytesLt, h]
      · subst h
        rcases ih ys with h2 | h2 | h2
        · left; rw [h2]
        · right; left; simp [bytesLt, Nat.lt_irrefl, h2]
        · right; right; simp [bytesLt, Nat.lt_irrefl, h2]
      · right; right; simp [bytesLt, h]

theorem insertDup_chain {v : Bytes} {vs : List Bytes}
    (h : List.Chain' (fun a b => bytesLt a b = true) vs) :
    List.Chain' (fun a b => bytesLt a b = true) (insertDup v vs) := by
  induction vs with
  | nil => simp [insertDup]
  | cons w ws ih =>
    by_cases hvw : v = w
    · simpa [insertDup, hvw] using h
    · by_cases hlt : bytesLt v w = true
      · simp only [insertDup, if_neg hvw, if_pos hlt]
        exact List.chain'_cons.mpr ⟨hlt, h⟩
      · have hwv : bytesLt w v = true := by
          rcases bytesLt_total v w with h1 | h1 | h1
          · exact absurd h1 hvw
          · exact absurd h1 hlt
          · exact h1
        simp only [insertDup, if_neg hvw, if_neg hlt]
        refine List.chain'_cons'.mpr ⟨?_, ih h.tail⟩
        intro z hz
        cases ws with
        | nil =>
          simp [insertDup] at hz
          subst hz
          exact hwv
        | cons w2 ws2 =>
          have hww2 : bytesLt w w2 = true := (List.chain'_cons.mp h).1
          by_cases hv2 : v = w2
          · simp [insertDup, hv2] at hz
            subst hz
            exact hww2
          · by_cases hlt2 : bytesLt v w2 = true
            · simp [insertDup, hv2, hlt2] at hz
              subst hz
              exact hwv
            · simp [insertDup, hv2, hlt2] at hz
              subst hz
              exact hww2

theorem dbLookup_mem {db : Db} {k : Bytes} {vs : List Bytes}
    (h : dbLookup db k = some vs) : (k, vs) ∈ db := by
  induction db with
  | nil => simp [dbLookup] at h
  | cons e es ih =>
    obtain ⟨k1, vs1⟩ := e
    by_cases he : k1 = k
    · simp only [dbLookup, if_pos he] at h
      obtain rfl := Option.some.inj h
      subst he
      exact List.mem_cons_self _ _
    · simp only [dbLookup, if_neg he] at h
      exact List.mem_cons_of_mem _ (ih h)

theorem dupsSorted_dbUpdate (db : Db) (k : Bytes) (vs : List Bytes)
    (hvs : List.Chain' (fun a b => bytesLt a b = true) vs) :
    dupsSorted db → dupsSorted (dbUpdate db k vs) := by
  induction db with
  | nil =>
    intro _ e he
    simp [dbUpdate] at he
    subst he
    exact hvs
  | cons e0 es ih =>
    intro hdb
    have h0 := hdb e0 (List.mem_cons_self _ _)
    have hes : dupsSorted es := fun e he => hdb e (List.mem_cons_of_mem _ he)
    by_cases he0 : e0.1 = k
    · intro e he
      simp only [dbUpdate, if_pos he0] at he
      rcases List.mem_cons.mp he with rfl | he2
      · exact hvs
      · exact hes e he2
    · intro e he
      simp only [dbUpdate, if_neg he0] at he
      rcases List.mem_cons.mp he with rfl | he2
      · exact h0
      · exact ih hes e he2

theorem putDb_dupsSorted {dflags : DatabaseFlags} {wflags : WriteFlags}
    {db db2 : Db} {k v : Bytes} (hdb : dupsSorted db)
    (h : putDb dflags wflags db k v = .ok db2) : dupsSorted db2 := by
  cases hl : dbLookup db k with
  | none =>
    simp only [putDb, hl] at h
    obtain rfl := Except.ok.inj h
    exact dupsSorted_dbUpdate db k [v] (List.chain'_singleton v) hdb
  | some vs =>
    have hvs : List.Chain' (fun a b => bytesLt a b = true) vs :=
      hdb (k, vs) (dbLookup_mem hl)
    simp only [putDb, hl] at h
    by_cases hds : dflags.dup_sort
    · rw [if_pos hds] at h
      by_cases hc : (wflags.no_overwrite || wflags.no_dup_data) && vs.contains v
      · rw [if_pos hc] at h
        exact absurd h (by simp)
      · rw [if_neg hc] at h
        obtain rfl := Except.ok.inj h
        exact dupsSorted_dbUpdate db k (insertDup v vs) (insertDup_chain hvs) hdb
    · rw [if_neg hds] at h
      by_cases hno : wflags.no_overwrite
      · rw [if_pos hno] at h
        exact absurd h (by simp)
      · rw [if_neg hno] at h
        obtain rfl := Except.ok.inj h
        exact dupsSorted_dbUpdate db k [v] (List.chain'_singleton v) hdb

theorem roGet_beginRoTxn (e : EnvState) (k : Bytes) (h : e.versions ≠ []) :
    roGet e (beginRoTxn e) k = viewGet (currentDb e) k := by
  have hsnap : roSnapshot e (beginRoTxn e) = e.versions.getLast? := by
    rw [roSnapshot, beginRoTxn, List.getLast?_eq_getElem?]
  cases hx : e.versions.getLast? with
  | none =>
    exact absurd (List.getLast?_eq_none_iff.mp hx) h
  | some db =>
    simp [roGet, hsnap, hx, currentDb]

theorem runPuts_ok (puts : List (Bytes × Bytes)) (e : EnvState) (t : RwTxn)
    (hsize : dbSize t.working + putsSize puts ≤ e.mapSize) :
    (runPuts e t puts).2 = .ok () ∧
    dbSize (runPuts e t puts).1.working ≤ dbSize t.working + putsSize puts ∧
    ∀ k, dbLookup (runPuts e t puts).1.working k =
      (match lastPut k puts with
       | some v => some [v]
       | none => dbLookup t.working k) := by
  induction puts generalizing t with
  | nil =>
    refine ⟨rfl, by simp [runPuts, putsSize], ?_⟩
    intro k
    simp [runPuts, lastPut]
  | cons p rest ih =>
    have hcons : putsSize (p :: rest) = (p.1.length + p.2.length) + putsSize rest := by
      simp [putsSize]
    have hput : putDb .default .empty t.working p.1 p.2
        = .ok (dbUpdate t.working p.1 [p.2]) := putDb_no_flags _ _ _ _ rfl
    have hsz1 : dbSize (dbUpdate t.working p.1 [p.2])
        ≤ dbSize t.working + (p.1.length + p.2.length) := dbSize_dbUpdate_le _ _ _
    have hsz_le : dbSize (dbUpdate t.working p.1 [p.2]) ≤ e.mapSize := by
      omega
    have hrw : rwPut e t .default .empty p.1 p.2
        = (⟨dbUpdate t.working p.1 [p.2]⟩, .ok ()) := by
      simp [rwPut, hput, hsz_le]
    have hrun : runPuts e t (p :: rest)
        = runPuts e ⟨dbUpdate t.working p.1 [p.2]⟩ rest := by
      simp [runPuts, hrw]
    obtain ⟨hok, hsz2, hlook⟩ :=
      ih ⟨dbUpdate t.working p.1 [p.2]⟩
        (by show dbSize (dbUpdate t.working p.1 [p.2]) + putsSize rest ≤ e.mapSize
            omega)
    have hsz3 : dbSize (runPuts e ⟨dbUpdate t.working p.1 [p.2]⟩ rest).1.working
        ≤ dbSize (dbUpdate t.working p.1 [p.2]) + putsSize rest := hsz2
    refine ⟨by rw [hrun]; exact hok, by rw [hrun]; omega, ?_⟩
    intro k
    rw [hrun, hlook k]
    cases hlp : lastPut k rest with
    | some v => simp [lastPut, hlp]
    | none =>
      by_cases hk : p.1 = k
      · subst hk
        simp [lastPut, hlp, dbLookup_dbUpdate_self]
      · simp [lastPut, hlp, hk, dbLookup_dbUpdate_ne _ _ _ _ (Ne.symm hk)]

/-- C2: every engine call checked through the `lmdb_try` macro succeeds
exactly when the engine's result code is `MDB_SUCCESS`; any other code is
converted through `Error.from_err_code` into a typed error returned to the
caller, so no nonzero result code is discarded. -/
theorem C2_lmdb_try_checks_every_code (code : Int) :
    (lmdb_try code = .ok () ↔ code = MDB_SUCCESS) ∧
    (code ≠ MDB_SUCCESS → lmdb_try code = .error (Error.from_err_code code)) := by
  by_cases h : code = MDB_SUCCESS <;> simp [lmdb_try, h]

/-- Witness for C2 at the engine's `MDB_NOTFOUND` code. -/
theorem C2_lmdb_try_checks_every_code_witness :
    (lmdb_try (-30798) = .ok () ↔ (-30798 : Int) = MDB_SUCCESS) ∧
    ((-30798 : Int) ≠ MDB_SUCCESS →
      lmdb_try (-30798) = .error (Error.from_err_code (-30798))) :=
  C2_lmdb_try_checks_every_code (-30798)

/-- C10: the `lmdb_try_with_cleanup` macro evaluates the cleanup expression
exactly once when the engine code is nonzero and never on `MDB_SUCCESS`,
discards the cleanup's result value, and always returns
`Error.from_err_code` of the original engine code, so a failing cleanup can
never mask the original error.  The first conjunct gives the full behaviour
(the result component never depends on the cleanup's returned value), the
second says the returned result agrees with plain `lmdb_try`, and the third
instruments the cleanup with a counter to show it runs exactly once on
failure and never on success. -/
theorem C10_cleanup_once_error_preserved {σ α : Type} (code : Int)
    (cleanup : σ → σ × α) (s : σ) :
    lmdb_try_with_cleanup code cleanup s =
      ((if code = MDB_SUCCESS then s else (cleanup s).1),
        (if code = MDB_SUCCESS then Except.ok ()
         else Except.error (Error.from_err_code code))) ∧
    (lmdb_try_with_cleanup code cleanup s).2 = lmdb_try code ∧
    ∀ n : Nat, (lmdb_try_with_cleanup code (fun m : Nat => (m + 1, ())) n).1
      = (if code = MDB_SUCCESS then n else n + 1) := by
  by_cases h : code = MDB_SUCCESS <;>
    simp [lmdb_try_with_cleanup, lmdb_try, h]

/-- Witness for C10 at the engine's `MDB_MAP_FULL` code with a concrete
cleanup action. -/
theorem C10_cleanup_once_error_preserved_witness :
    lmdb_try_with_cleanup (-30792) (fun _ : Bool => (true, (7 : Nat))) false =
      ((if (-30792 : Int) = MDB_SUCCESS then false
        else ((fun _ : Bool => (true, (7 : Nat))) false).1),
        (if (-30792 : Int) = MDB_SUCCESS then Except.ok ()
         else Except.error (Error.from_err_code (-30792)))) ∧
    (lmdb_try_with_cleanup (-30792) (fun _ : Bool => (true, (7 : Nat))) false).2
      = lmdb_try (-30792) ∧
    ∀ n : Nat, (lmdb_try_with_cleanup (-30792) (fun m : Nat => (m + 1, ())) n).1
      = (if (-30792 : Int) = MDB_SUCCESS then n else n + 1) :=
  C10_cleanup_once_error_preserved (-30792) (fun _ : Bool => (true, (7 : Nat))) false

/-- C1: a key/value pair written with `put` and then read with `get` in the
same transaction, or read through a read-only transaction begun after the
writing transaction commits, yields exactly the written bytes (stated for a
non-duplicate-sorted database whose configured map size admits the
write). -/
theorem C1_put_get_round_trip (e : EnvState) (t : RwTxn)
    (dflags : DatabaseFlags) (k v : Bytes)
    (hd : dflags.dup_sort = false)
    (hsz : dbSize (dbUpdate t.working k [v]) ≤ e.mapSize) :
    (rwPut e t dflags WriteFlags.empty k v).2 = .ok () ∧
    rwGet (rwPut e t dflags WriteFlags.empty k v).1 k = .ok v ∧
    roGet (commit e (rwPut e t dflags WriteFlags.empty k v).1 MDB_SUCCESS).1
      (beginRoTxn
        (commit e (rwPut e t dflags WriteFlags.empty k v).1 MDB_SUCCESS).1) k
      = .ok v := by
  have hput := putDb_no_flags dflags t.working k v hd
  have hrw : rwPut e t dflags WriteFlags.empty k v
      = (⟨dbUpdate t.working k [v]⟩, .ok ()) := by
    simp [rwPut, hput, hsz]
  refine ⟨by rw [hrw], ?_, ?_⟩
  · rw [hrw]
    exact viewGet_dbUpdate_self _ _ _
  · have h1 : (rwPut e t dflags WriteFlags.empty k v).1
        = ⟨dbUpdate t.working k [v]⟩ := by rw [hrw]
    rw [h1]
    have hv2 : (commit e (⟨dbUpdate t.working k [v]⟩ : RwTxn) MDB_SUCCESS).1.versions
        = e.versions ++ [dbUpdate t.working k [v]] := by
      simp [commit]
    rw [roGet_beginRoTxn _ k (by rw [hv2]; simp)]
    have hcur : currentDb (commit e (⟨dbUpdate t.working k [v]⟩ : RwTxn) MDB_SUCCESS).1
        = dbUpdate t.working k [v] := by
      simp [currentDb, hv2]
    rw [hcur]
    exact viewGet_dbUpdate_self _ _ _

/-- Witness for C1: writing value 2 under key 1 into a fresh environment and
reading it back in the same transaction and after commit. -/
theorem C1_put_get_round_trip_witness :
    DatabaseFlags.default.dup_sort = false ∧
    dbSize (dbUpdate (⟨[]⟩ : RwTxn).working [1] [[2]]) ≤ (newEnv 100).mapSize ∧
    ((rwPut (newEnv 100) ⟨[]⟩ DatabaseFlags.default WriteFlags.empty [1] [2]).2
        = .ok () ∧
      rwGet (rwPut (newEnv 100) ⟨[]⟩ DatabaseFlags.default
        WriteFlags.empty [1] [2]).1 [1] = .ok [2] ∧
      roGet (commit (newEnv 100) (rwPut (newEnv 100) ⟨[]⟩ DatabaseFlags.default
          WriteFlags.empty [1] [2]).1 MDB_SUCCESS).1
        (beginRoTxn (commit (newEnv 100) (rwPut (newEnv 100) ⟨[]⟩
          DatabaseFlags.default WriteFlags.empty [1] [2]).1 MDB_SUCCESS).1) [1]
        = .ok [2]) :=
  ⟨rfl, by decide,
    C1_put_get_round_trip (newEnv 100) ⟨[]⟩ DatabaseFlags.default [1] [2]
      rfl (by decide)⟩

/-- C3: a read-only transaction begun before a write transaction commits
pins its snapshot: the snapshot, and with it every get or cursor read made
through the transaction, is unchanged by the commit (successful or not), and
always reads exactly the committed state from begin time. -/
theorem C3_reader_isolation (e : EnvState) (t : RwTxn) (ec : Int) (k : Bytes)
    (h : e.versions ≠ []) :
    roSnapshot (commit e t ec).1 (beginRoTxn e) = roSnapshot e (beginRoTxn e) ∧
    roGet (commit e t ec).1 (beginRoTxn e) k = roGet e (beginRoTxn e) k ∧
    roGet e (beginRoTxn e) k = viewGet (currentDb e) k := by
  have hlen : e.versions.length - 1 < e.versions.length := by
    have := List.length_pos.mpr h
    omega
  have hsnap : roSnapshot (commit e t ec).1 (beginRoTxn e)
      = roSnapshot e (beginRoTxn e) := by
    by_cases hec : ec = MDB_SUCCESS
    · simp only [commit, if_pos hec, roSnapshot, beginRoTxn]
      exact List.getElem?_append_left hlen
    · simp [commit, if_neg hec, roSnapshot, beginRoTxn]
  exact ⟨hsnap, by simp only [roGet, hsnap], roGet_beginRoTxn e k h⟩

/-- Witness for C3: a reader begun on a one-version environment is unchanged
by a subsequent successful commit of key 1. -/
theorem C3_reader_isolation_witness :
    (newEnv 100).versions ≠ [] ∧
    (roSnapshot (commit (newEnv 100) ⟨[([1], [[7]])]⟩ 0).1 (beginRoTxn (newEnv 100))
        = roSnapshot (newEnv 100) (beginRoTxn (newEnv 100)) ∧
      roGet (commit (newEnv 100) ⟨[([1], [[7]])]⟩ 0).1 (beginRoTxn (newEnv 100)) [1]
        = roGet (newEnv 100) (beginRoTxn (newEnv 100)) [1] ∧
      roGet (newEnv 100) (beginRoTxn (newEnv 100)) [1]
        = viewGet (currentDb (newEnv 100)) [1]) :=
  ⟨by decide, C3_reader_isolation (newEnv 100) ⟨[([1], [[7]])]⟩ 0 [1] (by decide)⟩

/-- C4: the environment's admission gate admits at most one active
read-write transaction: from any state with at most one active writer, every
sequence of events leaves at most one active writer, and an attempt to begin
a second read-write transaction while one is active leaves the gate
unchanged (the attempting thread blocks; the begin does not complete). -/
theorem C4_single_writer (ops : List SchedOp) (s : Sched)
    (h : s.writers ≤ 1) :
    (runSched s ops).writers ≤ 1 ∧
    (∀ s2 : Sched, s2.writers ≠ 0 → stepSched s2 .beginRw = s2) := by
  refine ⟨?_, fun s2 h2 => by simp [stepSched, h2]⟩
  induction ops generalizing s with
  | nil => exact h
  | cons op rest ih =>
    have hstep : runSched s (op :: rest) = runSched (stepSched s op) rest := by
      simp [runSched]
    rw [hstep]
    refine ih (stepSched s op) ?_
    cases op with
    | beginRw =>
      by_cases h0 : s.writers = 0
      · simp [stepSched, h0]
      · simpa [stepSched, h0] using h
    | endRw =>
      simp only [stepSched]
      omega
    | beginRo => simpa [stepSched] using h
    | endRo => simpa [stepSched] using h

/-- Witness for C4: a schedule with overlapping begin attempts starting from
an idle gate. -/
theorem C4_single_writer_witness :
    (⟨0, 0⟩ : Sched).writers ≤ 1 ∧
    ((runSched ⟨0, 0⟩
        [SchedOp.beginRw, .beginRo, .beginRw, .endRw, .beginRw]).writers ≤ 1 ∧
      (∀ s2 : Sched, s2.writers ≠ 0 → stepSched s2 .beginRw = s2)) :=
  ⟨by decide,
    C4_single_writer [SchedOp.beginRw, .beginRo, .beginRw, .endRw, .beginRw]
      ⟨0, 0⟩ (by decide)⟩

/-- C5: `put` with `NO_OVERWRITE` on an existing key of a
non-duplicate-sorted database returns `KeyExist` and leaves the stored value
unchanged; on a duplicate-sorted database it returns `KeyExist` exactly when
the identical key/value pair already exists. -/
theorem C5_no_overwrite (e : EnvState) (t : RwTxn) (dflags : DatabaseFlags)
    (k v : Bytes) (vs : List Bytes)
    (hex : dbLookup t.working k = some vs) :
    (dflags.dup_sort = false →
      rwPut e t dflags WriteFlags.noOverwrite k v = (t, .error .KeyExist) ∧
      dbLookup (rwPut e t dflags WriteFlags.noOverwrite k v).1.working k
        = some vs) ∧
    (dflags.dup_sort = true →
      (((rwPut e t dflags WriteFlags.noOverwrite k v).2 = .error .KeyExist)
        ↔ v ∈ vs) ∧
      (v ∈ vs →
        rwPut e t dflags WriteFlags.noOverwrite k v = (t, .error .KeyExist))) := by
  constructor
  · intro hd
    have hput : putDb dflags WriteFlags.noOverwrite t.working k v
        = .error .KeyExist := by
      simp [putDb, hex, hd, WriteFlags.noOverwrite]
    have heq : rwPut e t dflags WriteFlags.noOverwrite k v
        = (t, .error .KeyExist) := by
      simp [rwPut, hput]
    exact ⟨heq, by rw [heq]; exact hex⟩
  · intro hd
    by_cases hv : v ∈ vs
    · have hput : putDb dflags WriteFlags.noOverwrite t.working k v
          = .error .KeyExist := by
        simp [putDb, hex, hd, WriteFlags.noOverwrite, hv]
      have heq : rwPut e t dflags WriteFlags.noOverwrite k v
          = (t, .error .KeyExist) := by
        simp [rwPut, hput]
      refine ⟨⟨fun _ => hv, fun _ => by rw [heq]⟩, fun _ => heq⟩
    · have hput : putDb dflags WriteFlags.noOverwrite t.working k v
          = .ok (dbUpdate t.working k (insertDup v vs)) := by
        simp [putDb, hex, hd, WriteFlags.noOverwrite, hv]
      have h2 : (rwPut e t dflags WriteFlags.noOverwrite k v).2 = .ok ()
          ∨ (rwPut e t dflags WriteFlags.noOverwrite k v).2 = .error .MapFull := by
        by_cases hs : dbSize (dbUpdate t.working k (insertDup v vs)) ≤ e.mapSize
        · left
          simp [rwPut, hput, hs]
        · right
          simp [rwPut, hput, hs]
      refine ⟨?_, fun hmem => absurd hmem hv⟩
      constructor
      · intro habs
        rcases h2 with h2 | h2 <;> rw [h2] at habs <;> simp at habs
      · intro hmem
        exact absurd hmem hv

/-- Witness for C5: key 1 already holds value 7 in a plain database; a
no-overwrite put of value 9 is rejected with `KeyExist` and the stored value
stays 7. -/
theorem C5_no_overwrite_witness :
    dbLookup (⟨[([1], [[7]])]⟩ : RwTxn).working [1] = some [[7]] ∧
    ((DatabaseFlags.default.dup_sort = false →
      rwPut (newEnv 100) ⟨[([1], [[7]])]⟩ DatabaseFlags.default
          WriteFlags.noOverwrite [1] [9] = (⟨[([1], [[7]])]⟩, .error .KeyExist) ∧
      dbLookup (rwPut (newEnv 100) ⟨[([1], [[7]])]⟩ DatabaseFlags.default
          WriteFlags.noOverwrite [1] [9]).1.working [1] = some [[7]]) ∧
    (DatabaseFlags.default.dup_sort = true →
      (((rwPut (newEnv 100) ⟨[([1], [[7]])]⟩ DatabaseFlags.default
          WriteFlags.noOverwrite [1] [9]).2 = .error .KeyExist) ↔ [9] ∈ [[7]]) ∧
      ([9] ∈ [[7]] →
        rwPut (newEnv 100) ⟨[([1], [[7]])]⟩ DatabaseFlags.default
          WriteFlags.noOverwrite [1] [9] = (⟨[([1], [[7]])]⟩, .error .KeyExist)))) :=
  ⟨by decide,
    C5_no_overwrite (newEnv 100) ⟨[([1], [[7]])]⟩ DatabaseFlags.default
      [1] [9] [[7]] (by decide)⟩

/-- C6: `commit` consumes the transaction and releases the writer slot in
every case; when the engine finalizes with `MDB_SUCCESS` the result is
success and a read-only transaction begun afterwards reads the transaction's
writes; when finalization fails the typed error built from the engine code
is returned, the committed versions are untouched, and a read-only
transaction begun afterwards still reads the pre-commit state, so none of
the aborted transaction's writes are visible. -/
theorem C6_commit_visibility_or_abort (e : EnvState) (t : RwTxn) (ec : Int)
    (k : Bytes) (hne : e.versions ≠ []) :
    (commit e t ec).1.writerActive = false ∧
    (ec = MDB_SUCCESS →
      (commit e t ec).2 = .ok () ∧
      roGet (commit e t ec).1 (beginRoTxn (commit e t ec).1) k
        = viewGet t.working k) ∧
    (ec ≠ MDB_SUCCESS →
      (commit e t ec).2 = .error (Error.from_err_code ec) ∧
      (commit e t ec).1.versions = e.versions ∧
      roGet (commit e t ec).1 (beginRoTxn (commit e t ec).1) k
        = viewGet (currentDb e) k) := by
  by_cases hec : ec = MDB_SUCCESS
  · have hv2 : (commit e t ec).1.versions = e.versions ++ [t.working] := by
      simp [commit, hec]
    refine ⟨by simp [commit, hec], fun _ => ⟨by simp [commit, hec], ?_⟩,
      fun hne2 => absurd hec hne2⟩
    rw [roGet_beginRoTxn _ k (by rw [hv2]; simp)]
    have hcur : currentDb (commit e t ec).1 = t.working := by
      simp [currentDb, hv2]
    rw [hcur]
  · have hv2 : (commit e t ec).1.versions = e.versions := by
      simp [commit, hec]
    refine ⟨by simp [commit, hec], fun hec2 => absurd hec2 hec,
      fun _ => ⟨by simp [commit, hec], hv2, ?_⟩⟩
    rw [roGet_beginRoTxn _ k (by rw [hv2]; exact hne)]
    have hcur : currentDb (commit e t ec).1 = currentDb e := by
      simp [currentDb, hv2]
    rw [hcur]

/-- Witness for C6 at a failing engine code, `MDB_MAP_FULL`. -/
theorem C6_commit_visibility_or_abort_witness :
    (newEnv 100).versions ≠ [] ∧
    ((commit (newEnv 100) ⟨[([1], [[7]])]⟩ (-30792)).1.writerActive = false ∧
    ((-30792 : Int) = MDB_SUCCESS →
      (commit (newEnv 100) ⟨[([1], [[7]])]⟩ (-30792)).2 = .ok () ∧
      roGet (commit (newEnv 100) ⟨[([1], [[7]])]⟩ (-30792)).1
        (beginRoTxn (commit (newEnv 100) ⟨[([1], [[7]])]⟩ (-30792)).1) [1]
        = viewGet (⟨[([1], [[7]])]⟩ : RwTxn).working [1]) ∧
    ((-30792 : Int) ≠ MDB_SUCCESS →
      (commit (newEnv 100) ⟨[([1], [[7]])]⟩ (-30792)).2
        = .error (Error.from_err_code (-30792)) ∧
      (commit (newEnv 100) ⟨[([1], [[7]])]⟩ (-30792)).1.versions
        = (newEnv 100).versions ∧
      roGet (commit (newEnv 100) ⟨[([1], [[7]])]⟩ (-30792)).1
        (beginRoTxn (commit (newEnv 100) ⟨[([1], [[7]])]⟩ (-30792)).1) [1]
        = viewGet (currentDb (newEnv 100)) [1])) :=
  ⟨by decide,
    C6_commit_visibility_or_abort (newEnv 100) ⟨[([1], [[7]])]⟩ (-30792) [1]
      (by decide)⟩

/-- C7: in a duplicate-sorted database the duplicates of every key stay in
ascending byte order under `put` with any flags, and concretely inserting
the values 5, 3, 9, 1 under one key and then iterating that key's duplicates
with a cursor yields them in ascending order 1, 3, 5, 9. -/
theorem C7_dup_sort_order (e : EnvState) (t : RwTxn) (dflags : DatabaseFlags)
    (wflags : WriteFlags) (k v : Bytes) (h : dupsSorted t.working) :
    dupsSorted (rwPut e t dflags wflags k v).1.working ∧
    putManyDb DatabaseFlags.dupSort WriteFlags.empty [] [0]
      [[5], [3], [9], [1]] = .ok [([0], [[1], [3], [5], [9]])] ∧
    dupIter [([0], [[1], [3], [5], [9]])] [0] = [[1], [3], [5], [9]] := by
  refine ⟨?_, by rfl, by rfl⟩
  cases hp : putDb dflags wflags t.working k v with
  | error err => simpa [rwPut, hp] using h
  | ok db2 =>
    by_cases hs : dbSize db2 ≤ e.mapSize
    · simpa [rwPut, hp, hs] using putDb_dupsSorted h hp
    · simpa [rwPut, hp, hs] using h

/-- Witness for C7 on an empty working state. -/
theorem C7_dup_sort_order_witness :
    dupsSorted (⟨[]⟩ : RwTxn).working ∧
    (dupsSorted (rwPut (newEnv 100) ⟨[]⟩ DatabaseFlags.dupSort
        WriteFlags.empty [0] [5]).1.working ∧
      putManyDb DatabaseFlags.dupSort WriteFlags.empty [] [0]
        [[5], [3], [9], [1]] = .ok [([0], [[1], [3], [5], [9]])] ∧
      dupIter [([0], [[1], [3], [5], [9]])] [0] = [[1], [3], [5], [9]]) :=
  ⟨fun e he => absurd he (List.not_mem_nil e),
    C7_dup_sort_order (newEnv 100) ⟨[]⟩ DatabaseFlags.dupSort
      WriteFlags.empty [0] [5]
      (fun e he => absurd he (List.not_mem_nil e))⟩

/-- C9: with a map size configured large enough, a single read-write
transaction whose puts write more than 2 GB cumulatively has every put
succeed, the final commit succeed, and every written key read back the last
value written under it in a transaction begun after the commit. -/
theorem C9_over_2gb_write (puts : List (Bytes × Bytes)) (e : EnvState)
    (t : RwTxn) (hbig : 2 ^ 31 < putsSize puts)
    (hsize : dbSize t.working + putsSize puts ≤ e.mapSize) :
    (runPuts e t puts).2 = .ok () ∧
    (commit e (runPuts e t puts).1 MDB_SUCCESS).2 = .ok () ∧
    ∀ k v2, lastPut k puts = some v2 →
      roGet (commit e (runPuts e t puts).1 MDB_SUCCESS).1
        (beginRoTxn (commit e (runPuts e t puts).1 MDB_SUCCESS).1) k
        = .ok v2 := by
  obtain ⟨hok, _, hlook⟩ := runPuts_ok puts e t hsize
  refine ⟨hok, by simp [commit, MDB_SUCCESS], ?_⟩
  intro k v2 hlp
  have hv2 : (commit e (runPuts e t puts).1 MDB_SUCCESS).1.versions
      = e.versions ++ [(runPuts e t puts).1.working] := by
    simp [commit]
  rw [roGet_beginRoTxn _ k (by rw [hv2]; simp)]
  have hcur : currentDb (commit e (runPuts e t puts).1 MDB_SUCCESS).1
      = (runPuts e t puts).1.working := by
    simp [currentDb, hv2]
  rw [hcur]
  have hfound : dbLookup (runPuts e t puts).1.working k = some [v2] := by
    rw [hlook k, hlp]
  simp [viewGet, hfound]

/-- Concrete value of 2^31 zero bytes for the C9 witness. -/
def bigVal : Bytes := List.replicate (2 ^ 31) 0

/-- Two puts of `bigVal` under distinct keys: more than 4 GB cumulatively. -/
def bigPuts : List (Bytes × Bytes) := [([0], bigVal), ([1], bigVal)]

/-- Cumulative size of `bigPuts`: two 1-byte keys plus two 4 GB values. -/
theorem putsSize_pair (k1 v1 k2 v2 : Bytes) :
    putsSize [(k1, v1), (k2, v2)]
      = k1.length + v1.length + (k2.length + v2.length) := by
  simp only [putsSize, List.map_cons, List.map_nil, List.sum_cons,
    List.sum_nil]
  omega

theorem putsSize_bigPuts : putsSize bigPuts = 2 ^ 32 + 2 := by
  rw [show bigPuts = [([0], bigVal), ([1], bigVal)] from rfl, putsSize_pair,
    show bigVal.length = 2 ^ 31 from List.length_replicate _ _]
  norm_num

/-- Witness for C9: over 4 GB written through two puts into an 8 GB map. -/
theorem C9_over_2gb_write_witness :
    2 ^ 31 < putsSize bigPuts ∧
    dbSize (⟨[]⟩ : RwTxn).working + putsSize bigPuts ≤ (newEnv (2 ^ 33)).mapSize ∧
    ((runPuts (newEnv (2 ^ 33)) ⟨[]⟩ bigPuts).2 = .ok () ∧
      (commit (newEnv (2 ^ 33)) (runPuts (newEnv (2 ^ 33)) ⟨[]⟩ bigPuts).1
        MDB_SUCCESS).2 = .ok () ∧
      ∀ k v2, lastPut k bigPuts = some v2 →
        roGet (commit (newEnv (2 ^ 33)) (runPuts (newEnv (2 ^ 33)) ⟨[]⟩
            bigPuts).1 MDB_SUCCESS).1
          (beginRoTxn (commit (newEnv (2 ^ 33)) (runPuts (newEnv (2 ^ 33)) ⟨[]⟩
            bigPuts).1 MDB_SUCCESS).1) k = .ok v2) := by
  have hbig : 2 ^ 31 < putsSize bigPuts := by
    rw [putsSize_bigPuts]
    norm_num
  have hsize : dbSize (⟨[]⟩ : RwTxn).working + putsSize bigPuts
      ≤ (newEnv (2 ^ 33)).mapSize := by
    rw [putsSize_bigPuts]
    show 0 + (2 ^ 32 + 2) ≤ 2 ^ 33
    norm_num
  exact ⟨hbig, hsize, C9_over_2gb_write bigPuts (newEnv (2 ^ 33)) ⟨[]⟩ hbig hsize⟩

end Lmdb
